import Mathlib

/-!
Verification of the `underwaterviz` repository against its specification.

A shallow embedding of the three source modules:
  * `visibility_estimator.py` — the vision-oracle client with its rate-limit
    retry loop (`estimate_visibility`);
  * `backfill_visibility.py` — the idempotent backfill scheduler
    (`load_existing_timestamps`, `append_row`, `process_image`, `main`);
  * `grab_snapshot.py` — capture gating, housekeeping and manifest builders
    (`within_window`, `clean_outside_window`, `_load_visibility_data`,
    `build_last7days`, `build_months_manifest`, `append_visibility_csv`,
    `estimate_visibility`, `main`).

Machine floats appear in the source only as the visibility estimate, whose
claim-relevant values are NaN (modelled as `none`) or ordinary decimals
(modelled as `Option ℚ`).  Python string operations are modelled over the
character list `String.data` so that every definition evaluates inside the
kernel.  File-system state is passed explicitly; the network is modelled by
an environment function giving the outcome of each API call.
-/

namespace UV

/-! ### Python string primitives (modelled over `String.data`) -/

/-- Python `str.strip()`: drop whitespace from both ends. -/
def pyStrip (s : String) : String :=
  String.mk (((s.data.dropWhile Char.isWhitespace).reverse.dropWhile
    Char.isWhitespace).reverse)

/-- Python `str.lower()` (ASCII case folding, which covers every string the
program compares). -/
def pyLower (s : String) : String :=
  String.mk (s.data.map Char.toLower)

/-- Python `needle in hay` on strings: contiguous-substring test. -/
def strContains (needle hay : String) : Bool :=
  decide (needle.data <:+: hay.data)

/-- Python `s[:n]` (character slice). -/
def pyTake (n : Nat) (s : String) : String :=
  String.mk (s.data.take n)

/-- Python `str.zfill(w)`: left-pad with `'0'` to width `w`.  (The sign-aware
corner of `zfill` is irrelevant here: it is only applied to digit file stems
and to `strftime` output.) -/
def zfill (w : Nat) (s : String) : String :=
  if s.length ≥ w then s else String.mk (List.replicate (w - s.length) '0') ++ s

/-- `strftime` two-digit zero-padded field (`%m`, `%d`, `%H`, `%M`). -/
def fmt2 (n : Nat) : String := zfill 2 (Nat.repr n)

/-- `strftime` `%Y`: four-digit zero-padded year. -/
def fmt4 (n : Nat) : String := zfill 4 (Nat.repr n)

/-- Python `str.isdigit()` for ASCII content: nonempty and all decimal digits.
(Python also accepts some non-ASCII digit characters; filenames here are
ASCII, and on such characters the subsequent `int(...)` would raise anyway.) -/
def stemIsDigit (s : String) : Bool :=
  !s.data.isEmpty && s.data.all Char.isDigit

/-- Python `int(s, 10)` on a digit string. -/
def parseNat (s : String) : Nat :=
  s.data.foldl (fun n c => n * 10 + (c.toNat - '0'.toNat)) 0

/-- Decimal digit run value. -/
def digitsToNat (cs : List Char) : Nat :=
  cs.foldl (fun n c => n * 10 + (c.toNat - '0'.toNat)) 0

/-- Python `float(s)` on the strings this program feeds it, returning `none`
where `float` raises `ValueError`: an optional sign, then digits with at most
one decimal point (at least one digit overall).  Exotic `float` spellings
(exponents, `inf`, `nan`, underscores) are not produced by the log writers and
are not modelled. -/
def parseDecimal? (s : String) : Option ℚ :=
  let signed : Int × List Char :=
    match s.data with
    | '-' :: t => (-1, t)
    | '+' :: t => (1, t)
    | cs => (1, cs)
  match (signed.2.splitOn '.') with
  | [ip] =>
    if !ip.isEmpty && ip.all Char.isDigit then
      some ((signed.1 * digitsToNat ip : Int) : ℚ)
    else none
  | [ip, fp] =>
    if !(ip ++ fp).isEmpty && (ip ++ fp).all Char.isDigit then
      some ((signed.1 : ℚ) * ((digitsToNat ip : ℚ) +
        (digitsToNat fp : ℚ) / (10 : ℚ) ^ fp.length))
    else none
  | _ => none

/-- Python `str(float)` for the values the program writes: integral floats
render as `"<n>.0"`; (non-integral decimals, which no claim exercises, are
rendered canonically). -/
def floatStr (q : ℚ) : String :=
  if q.den = 1 then toString q.num ++ (".0")
  else toString q.num ++ ("/") ++ toString q.den

/-! ### Oracle client (`visibility_estimator.py`, `estimate_visibility`) -/

/-- The decoded `visibility_ft` field of a successfully parsed JSON response:
absent (`result.get` returned `None`), a JSON string, or a JSON number. -/
inductive VisField where
  | absent : VisField
  | vstr (s : String) : VisField
  | vnum (q : ℚ) : VisField
deriving DecidableEq

/-- Outcome of one `client.chat.completions.create` round trip, as observed by
the `try` block: either the call, fence stripping, `json.loads` and field
extraction all succeeded (`success` carries the decoded `visibility_ft` and
`analysis` fields), or some step raised with error text `str(e)`. -/
inductive CallOutcome where
  | success (vf : VisField) (analysis : String) : CallOutcome
  | failure (err : String) : CallOutcome
deriving DecidableEq

/-- Result of one loop iteration after the in-`try` post-processing:
return a value, or raise into the `except` handler. -/
inductive AttemptResult where
  | done (vis : Option ℚ) (analysis : String) : AttemptResult
  | raise (err : String) : AttemptResult
deriving DecidableEq

/-- `"429" in err_str or "rate_limit" in err_str.lower()` (line 151). -/
def isRateLimit (err : String) : Bool :=
  strContains ("429") err || strContains ("rate_limit") (pyLower err)

/-- Lines 137–147 plus the surrounding `try`: map one call outcome through the
nan check and `float(vis)`.  A `float` conversion failure raises `ValueError`
whose text embeds the offending string, exactly as the handler will see it. -/
def runAttempt (attempts : Nat → CallOutcome) (i : Nat) : AttemptResult :=
  match attempts i with
  | .success vf analysis =>
    match vf with
    | .absent => .done none analysis
    | .vnum q => .done (some q) analysis
    | .vstr s =>
      if pyLower s = ("nan") then .done none analysis
      else
        match parseDecimal? s with
        | some q => .done (some q) analysis
        | none => .raise (("could not convert string to float: ") ++ s)
  | .failure e => .raise e

/-- Observable result of `estimate_visibility`: the returned pair (NaN is
`vis = none`), plus the number of API calls issued and the list of back-off
sleeps performed, in order. -/
structure EstResult where
  vis : Option ℚ
  analysis : String
  calls : Nat
  waits : List Nat
deriving DecidableEq

/-- The `for attempt in range(max_retries)` loop (lines 126–160): `r` is the
number of attempts left, `i` the current attempt index, `ws` the reversed list
of sleeps done so far.  A rate-limited failure sleeps `2 ** attempt + 1` and
retries; any other failure returns the NaN sentinel immediately; falling off
the loop returns the retries-exhausted sentinel. -/
def estLoop (attempts : Nat → CallOutcome) : Nat → Nat → List Nat → EstResult
  | 0, i, ws => ⟨none, "error: rate limit retries exhausted", i, ws.reverse⟩
  | r + 1, i, ws =>
    match runAttempt attempts i with
    | .done v d => ⟨v, d, i + 1, ws.reverse⟩
    | .raise e =>
      if isRateLimit e then estLoop attempts r (i + 1) ((2 ^ i + 1) :: ws)
      else ⟨none, ("error: ") ++ e, i + 1, ws.reverse⟩

/-- Environment of one `estimate_visibility` run: the credential string
(`os.environ.get("OPENAI_API_KEY", "")`, empty when absent) and the outcome of
the `i`-th API call were it issued. -/
structure OracleEnv where
  apiKey : String
  attempts : Nat → CallOutcome

/-- `estimate_visibility` (lines 77–160): missing credentials short-circuit
before any call; otherwise the retry loop runs with `max_retries = 5`. -/
def estimate_visibility (env : OracleEnv) : EstResult :=
  if env.apiKey = "" then ⟨none, "OPENAI_API_KEY not set", 0, []⟩
  else estLoop env.attempts 5 0 []

/-- The response scenarios the spec calls "unusable": `visibility_ft` absent,
or the string `"nan"` case-insensitively (line 145). -/
def visFieldNan : VisField → Bool
  | .absent => true
  | .vstr s => pyLower s = ("nan")
  | .vnum _ => false

/-- A call outcome that the handler classifies as a rate-limit failure. -/
def isRLFailure : CallOutcome → Bool
  | .failure e => isRateLimit e
  | _ => false

lemma estLoop_rl_step (attempts : Nat → CallOutcome) (r i : Nat) (ws : List Nat)
    (h : isRLFailure (attempts i) = true) :
    estLoop attempts (r + 1) i ws = estLoop attempts r (i + 1) ((2 ^ i + 1) :: ws) := by
  cases hc : attempts i with
  | success vf a => rw [hc] at h; simp [isRLFailure] at h
  | failure e =>
    rw [hc] at h
    simp only [isRLFailure] at h
    simp [estLoop, runAttempt, hc, h]

lemma estLoop_skip (attempts : Nat → CallOutcome) (k : Nat) :
    ∀ (r i : Nat) (ws : List Nat), k ≤ r →
    (∀ j, j < k → isRLFailure (attempts (i + j)) = true) →
    estLoop attempts r i ws =
      estLoop attempts (r - k) (i + k)
        (((List.range k).map (fun j => 2 ^ (i + j) + 1)).reverse ++ ws) := by
  induction k with
  | zero => intro r i ws _ _; simp
  | succ k ih =>
    intro r i ws hk h
    obtain ⟨r', rfl⟩ : ∃ r', r = r' + 1 := ⟨r - 1, by omega⟩
    rw [estLoop_rl_step attempts r' i ws (by simpa using h 0 (by omega))]
    have harith : r' + 1 - (k + 1) = r' - k := by omega
    have hidx : i + (k + 1) = i + 1 + k := by omega
    have hlist : ((List.range (k + 1)).map (fun j => 2 ^ (i + j) + 1)).reverse ++ ws =
        ((List.range k).map (fun j => 2 ^ (i + 1 + j) + 1)).reverse ++ ((2 ^ i + 1) :: ws) := by
      rw [List.range_succ_eq_map]
      simp only [List.map_cons, List.map_map, List.reverse_cons, Nat.add_zero,
        List.append_assoc, List.singleton_append]
      congr 1
      congr 1
      apply List.map_congr_left
      intro j _
      simp only [Function.comp_apply]
      rw [show i + Nat.succ j = i + 1 + j from by omega]
    rw [harith, hidx, hlist]
    exact ih r' (i + 1) ((2 ^ i + 1) :: ws) (by omega)
      (fun j hj => by
        have := h (j + 1) (by omega)
        rwa [show i + (j + 1) = i + 1 + j from by omega] at this)

lemma estLoop_succ_done (attempts : Nat → CallOutcome) (r i : Nat) (ws : List Nat)
    (v : Option ℚ) (d : String) (h : runAttempt attempts i = .done v d) :
    estLoop attempts (r + 1) i ws = ⟨v, d, i + 1, ws.reverse⟩ := by
  simp [estLoop, h]

lemma estLoop_succ_hard (attempts : Nat → CallOutcome) (r i : Nat) (ws : List Nat)
    (e : String) (h : runAttempt attempts i = .raise e) (hrl : isRateLimit e = false) :
    estLoop attempts (r + 1) i ws = ⟨none, ("error: ") ++ e, i + 1, ws.reverse⟩ := by
  simp [estLoop, h, hrl]

lemma estLoop_exhaust (attempts : Nat → CallOutcome)
    (h : ∀ j, j < 5 → isRLFailure (attempts j) = true) :
    estLoop attempts 5 0 [] =
      ⟨none, "error: rate limit retries exhausted", 5, (List.range 5).map (fun j => 2 ^ j + 1)⟩ := by
  have := estLoop_skip attempts 5 5 0 [] (le_refl 5) (fun j hj => by simpa using h j hj)
  rw [this]
  simp [estLoop]

/-- C1: `estimate_visibility` returns the NaN sentinel (`vis = none`) with a
description and raises nothing (the model is a total function) in all three
scenarios: (1) the decoded `visibility_ft` field is absent or `"nan"`
case-insensitively, (2) the credential is absent — no API call is issued
(`calls = 0`) and the description is the not-configured text, (3) every
attempt rate-limits — the retries-exhausted text after all five calls. -/
theorem C1_sentinel_contract :
    (∀ env : OracleEnv, env.apiKey = "" →
      estimate_visibility env = ⟨none, "OPENAI_API_KEY not set", 0, []⟩) ∧
    (∀ (env : OracleEnv) (vf : VisField) (a : String), env.apiKey ≠ "" →
      env.attempts 0 = .success vf a → visFieldNan vf = true →
      estimate_visibility env = ⟨none, a, 1, []⟩) ∧
    (∀ env : OracleEnv, env.apiKey ≠ "" →
      (∀ j, j < 5 → isRLFailure (env.attempts j) = true) →
      estimate_visibility env =
        ⟨none, "error: rate limit retries exhausted", 5, [2, 3, 5, 9, 17]⟩) := by
  refine ⟨fun env h => by simp [estimate_visibility, h], ?_, ?_⟩
  · intro env vf a hk h0 hnan
    have hrun : runAttempt env.attempts 0 = .done none a := by
      cases vf with
      | absent => simp [runAttempt, h0]
      | vstr s =>
        have hs : pyLower s = ("nan") := of_decide_eq_true hnan
        simp [runAttempt, h0, hs]
      | vnum q => simp [visFieldNan] at hnan
    simp only [estimate_visibility, if_neg hk]
    rw [show (5 : Nat) = 4 + 1 from rfl, estLoop_succ_done env.attempts 4 0 [] none a hrun]
    rfl
  · intro env hk h
    simp only [estimate_visibility, if_neg hk]
    rw [estLoop_exhaust env.attempts h]
    decide

/-- Closed witness for `C1_sentinel_contract` at concrete environments. -/
theorem C1_sentinel_contract_witness :
    estimate_visibility ⟨"", fun _ => .failure ("x")⟩ =
      ⟨none, "OPENAI_API_KEY not set", 0, []⟩ ∧
    estimate_visibility ⟨"sk-test", fun _ => .success (.vstr ("NaN")) ("murky frame")⟩ =
      ⟨none, "murky frame", 1, []⟩ ∧
    estimate_visibility ⟨"sk-test", fun _ => .failure ("HTTP 429 too many requests")⟩ =
      ⟨none, "error: rate limit retries exhausted", 5, [2, 3, 5, 9, 17]⟩ :=
  ⟨C1_sentinel_contract.1 _ rfl,
   C1_sentinel_contract.2.1 _ _ _ (by decide) rfl (by decide),
   C1_sentinel_contract.2.2 _ (by decide) (by decide)⟩

/-- C7: retry policy.  After `k` rate-limited failures (each slept
`2 ^ attempt + 1` seconds, the doubling-plus-offset schedule), a failure whose
error text lacks the rate-limit marker aborts immediately to the NaN sentinel
with no further API calls; sustained rate-limiting retries up to the fixed
maximum of 5 attempts and then degrades to the exhausted sentinel. -/
theorem C7_retry_policy :
    (∀ (env : OracleEnv) (k : Nat) (e : String), env.apiKey ≠ "" → k < 5 →
      (∀ j, j < k → isRLFailure (env.attempts j) = true) →
      env.attempts k = .failure e → isRateLimit e = false →
      estimate_visibility env =
        ⟨none, ("error: ") ++ e, k + 1, (List.range k).map (fun j => 2 ^ j + 1)⟩) ∧
    (∀ env : OracleEnv, env.apiKey ≠ "" →
      (∀ j, j < 5 → isRLFailure (env.attempts j) = true) →
      estimate_visibility env =
        ⟨none, "error: rate limit retries exhausted", 5,
          (List.range 5).map (fun j => 2 ^ j + 1)⟩) := by
  constructor
  · intro env k e hk hk5 hrl hfail hnot
    simp only [estimate_visibility, if_neg hk]
    rw [estLoop_skip env.attempts k 5 0 [] (by omega) (fun j hj => by simpa using hrl j hj)]
    obtain ⟨r, hr⟩ : ∃ r, 5 - k = r + 1 := ⟨4 - k, by omega⟩
    rw [hr]
    simp only [Nat.zero_add]
    rw [estLoop_succ_hard env.attempts r k _ e (by simp [runAttempt, hfail]) hnot]
    simp
  · intro env hk h
    simp only [estimate_visibility, if_neg hk]
    rw [estLoop_exhaust env.attempts h]

/-- Closed witness for `C7_retry_policy`: one rate-limited attempt, then a
hard failure aborts with exactly two calls and one back-off sleep. -/
theorem C7_retry_policy_witness :
    estimate_visibility
        ⟨"sk-test", fun j => if j = 0 then .failure ("429 rate limited")
          else .failure ("boom")⟩ =
      ⟨none, "error: boom", 2, [2]⟩ := by
  have := C7_retry_policy.1
    ⟨"sk-test", fun j => if j = 0 then .failure ("429 rate limited") else .failure ("boom")⟩
    1 ("boom") (by decide) (by decide) (by decide) rfl (by decide)
  simpa using this

/-! ### The visibility log (CSV), shared by both writers

A CSV file is a list of records; `Option CsvFile` distinguishes a missing
file (`none`) from an existing one.  `csv.writer`/`csv.DictReader` quoting is
irrelevant to the claims (no written field contains a separator). -/

abbrev CsvFile := List (List String)

/-- The header row both writers emit. -/
def csvHeader : List String := [("timestamp"), ("visibility_ft"), ("conditions")]

/-- `"" if (vis_ft != vis_ft) else str(vis_ft)` — the NaN check serializes the
sentinel as the empty string, any other value as its decimal string. -/
def visStr : Option ℚ → String
  | none => ""
  | some q => floatStr q

/-- All rows of a possibly missing file. -/
def rowsOf (f : Option CsvFile) : List (List String) := f.getD []

/-- `append_visibility_csv` (grab_snapshot.py lines 363–372): header exactly
when the file does not yet exist, then the row. -/
def append_visibility_csv (file : Option CsvFile) (timestamp : String)
    (visibility_ft : Option ℚ) (conditions : String) : CsvFile :=
  let write_header := file.isNone
  rowsOf file ++ (if write_header then [csvHeader] else []) ++
    [[timestamp, visStr visibility_ft, conditions]]

/-- `append_row` (backfill_visibility.py lines 41–49): header when the file is
missing or has size 0, then the row.  The surrounding `csv_lock` makes the
check-and-write atomic, so the sequential model is faithful. -/
def append_row (file : Option CsvFile) (timestamp : String)
    (vis_ft : Option ℚ) (analysis : String) : CsvFile :=
  let write_header := file.isNone || (rowsOf file).isEmpty
  rowsOf file ++ (if write_header then [csvHeader] else []) ++
    [[timestamp, visStr vis_ft, analysis]]

/-- `csv.DictReader` field access: `row.get(name, "")` with the first row as
field names (a short row yields the default). -/
def rowField (hdr row : List String) (name : String) : String :=
  match hdr.indexOf? name with
  | some i => row.getD i ""
  | none => ""

/-- `load_existing_timestamps` (backfill_visibility.py lines 31–38):
`row.get("timestamp", "").strip()` over the data rows, as a membership list. -/
def load_existing_timestamps (file : Option CsvFile) : List String :=
  match file with
  | none => []
  | some [] => []
  | some (hdr :: rs) => rs.map (fun r => pyStrip (rowField hdr r ("timestamp")))

/-- Raw (unstripped) timestamp cells of the data rows, used to state row
uniqueness.  The header row carries no timestamp. -/
def logTimestamps (file : Option CsvFile) : List String :=
  (rowsOf file).tail.map (fun r => r.headD "")

lemma floatStr_ne_empty (q : ℚ) : floatStr q ≠ "" := by
  intro h
  unfold floatStr at h
  have h0 : ("" : String).length = 0 := rfl
  by_cases hd : q.den = 1
  · rw [if_pos hd] at h
    have hlen := congrArg String.length h
    rw [String.length_append, h0, show ((".0") : String).length = 2 from rfl] at hlen
    omega
  · rw [if_neg hd] at h
    have hlen := congrArg String.length h
    rw [String.length_append, String.length_append, h0,
      show (("/") : String).length = 1 from rfl] at hlen
    omega

/-- C8: serialization and header discipline of both log appenders.  The
sentinel (`none`) is written as the empty `visibility_ft` cell — and nothing
else is — while the header is emitted only when the append creates the file
(for `append_row`, also when the file exists with size 0) and never on an
append to a nonempty file. -/
theorem C8_append_serialization :
    (∀ (ts c : String) (v : Option ℚ),
      append_visibility_csv none ts v c = [csvHeader, [ts, visStr v, c]] ∧
      append_row none ts v c = [csvHeader, [ts, visStr v, c]] ∧
      append_row (some []) ts v c = [csvHeader, [ts, visStr v, c]]) ∧
    (∀ (rows : CsvFile) (ts c : String) (v : Option ℚ),
      append_visibility_csv (some rows) ts v c = rows ++ [[ts, visStr v, c]]) ∧
    (∀ (rows : CsvFile) (ts c : String) (v : Option ℚ), rows ≠ [] →
      append_row (some rows) ts v c = rows ++ [[ts, visStr v, c]]) ∧
    (∀ v : Option ℚ, visStr v = "" ↔ v = none) ∧
    (∀ q : ℚ, visStr (some q) = floatStr q) := by
  refine ⟨fun ts c v => ⟨rfl, rfl, rfl⟩,
    fun rows ts c v => by simp [append_visibility_csv, rowsOf],
    fun rows ts c v h => ?_, fun v => ?_, fun q => rfl⟩
  · cases rows with
    | nil => exact absurd rfl h
    | cons r rs => simp [append_row, rowsOf]
  · cases v with
    | none => simp [visStr]
    | some q => simpa [visStr] using floatStr_ne_empty q

/-- Closed witness for `C8_append_serialization`: appending a sentinel row to
a nonempty file adds no second header and writes the empty cell. -/
theorem C8_append_serialization_witness :
    ([csvHeader] : CsvFile) ≠ [] ∧
    append_row (some [csvHeader]) ("2026-01-05 09:00") none ("murky water") =
      [csvHeader, [("2026-01-05 09:00"), "", ("murky water")]] :=
  ⟨by decide,
   (C8_append_serialization.2.2.1 [csvHeader] ("2026-01-05 09:00") ("murky water") none
     (by decide))⟩

/-! ### Backfill scheduler (`backfill_visibility.py`) -/

/-- A snapshot file under the month directory, as `rglob("*.png")` exposes it
to the scheduler: its parent directory name (`img_path.parent.name`, the day
for the canonical layout) and its stem. -/
structure ImgFile where
  day : String
  stem : String
deriving DecidableEq

/-- `f"{year}-{month}-{day} {hour}:00"` with `hour = stem.zfill(2)`
(`process_image`, lines 52–59, and the filter in `main`, lines 84–89). -/
def timestampOf (year month : String) (img : ImgFile) : String :=
  year ++ ("-") ++ month ++ ("-") ++ img.day ++ (" ") ++ zfill 2 img.stem ++ (":00")

/-- The filtered worklist of `main` (lines 83–89): images whose derived
timestamp is not already in the log. -/
def backfillToProcess (year month : String) (images : List ImgFile)
    (log : Option CsvFile) : List ImgFile :=
  let existing := load_existing_timestamps log
  images.filter (fun img => !(existing.contains (timestampOf year month img)))

/-- The data row `process_image` appends for one image, given the oracle's
answer for that image. -/
def mkDataRow (year month : String) (oracle : ImgFile → Option ℚ × String)
    (img : ImgFile) : List String :=
  [timestampOf year month img, visStr (oracle img).1, (oracle img).2]

/-- One worker's `estimate_visibility` + `append_row` commit
(`process_image`). -/
def backfillStep (year month : String) (oracle : ImgFile → Option ℚ × String)
    (f : Option CsvFile) (img : ImgFile) : Option CsvFile :=
  some (append_row f (timestampOf year month img) (oracle img).1 (oracle img).2)

/-- A whole backfill run of `main` (lines 62–110) over one month: filter
against the existing log, then commit one row per processed image.  The
`csv_lock` serializes commits; commit order is abstracted as worklist order,
which no claim distinguishes.  `oracle` is total: item-level failures absent,
as the counting claim assumes. -/
def backfillRun (year month : String) (images : List ImgFile) (log : Option CsvFile)
    (oracle : ImgFile → Option ℚ × String) : Option CsvFile :=
  (backfillToProcess year month images log).foldl (backfillStep year month oracle) log

lemma append_row_of_ne_nil (rs : CsvFile) (h : rs ≠ []) (ts : String) (v : Option ℚ)
    (a : String) : append_row (some rs) ts v a = rs ++ [[ts, visStr v, a]] := by
  cases rs with
  | nil => exact absurd rfl h
  | cons r rrs => simp [append_row, rowsOf]

lemma backfillFold_some (y m : String) (oracle : ImgFile → Option ℚ × String) :
    ∀ (l : List ImgFile) (rs : CsvFile), rs ≠ [] →
      l.foldl (backfillStep y m oracle) (some rs) =
        some (rs ++ l.map (mkDataRow y m oracle)) := by
  intro l
  induction l with
  | nil => intro rs _; simp
  | cons img l ih =>
    intro rs h
    simp only [List.foldl_cons]
    have h1 : backfillStep y m oracle (some rs) img =
        some (rs ++ [mkDataRow y m oracle img]) := by
      unfold backfillStep mkDataRow
      rw [append_row_of_ne_nil rs h]
    rw [h1, ih (rs ++ [mkDataRow y m oracle img]) (by simp)]
    simp

lemma backfillFold_fresh (y m : String) (oracle : ImgFile → Option ℚ × String)
    (img : ImgFile) (l : List ImgFile) (f : Option CsvFile) (hf : rowsOf f = []) :
    (img :: l).foldl (backfillStep y m oracle) f =
      some (csvHeader :: (img :: l).map (mkDataRow y m oracle)) := by
  simp only [List.foldl_cons]
  have h1 : backfillStep y m oracle f img =
      some ([csvHeader, mkDataRow y m oracle img]) := by
    cases f with
    | none => rfl
    | some rs =>
      have : rs = [] := by simpa [rowsOf] using hf
      subst this; rfl
  rw [h1, backfillFold_some y m oracle l [csvHeader, mkDataRow y m oracle img] (by simp)]
  simp

lemma getD_zero_eq_headD (r : List String) : r.getD 0 "" = r.headD "" := by
  cases r <;> rfl

lemma rowField_header_ts (r : List String) :
    rowField csvHeader r ("timestamp") = r.headD "" := by
  show r.getD 0 "" = r.headD ""
  exact getD_zero_eq_headD r

/-- Row-level view of a whole run: the rows afterwards are the old rows, a
header iff the file was missing/empty and something was processed, then one
data row per processed image. -/
lemma rowsOf_backfillRun (y m : String) (images : List ImgFile)
    (oracle : ImgFile → Option ℚ × String) (log : Option CsvFile) :
    rowsOf (backfillRun y m images log oracle) =
      rowsOf log ++
      (if (rowsOf log).isEmpty && !(backfillToProcess y m images log).isEmpty
        then [csvHeader] else []) ++
      (backfillToProcess y m images log).map (mkDataRow y m oracle) := by
  cases hlog : log with
  | none =>
    cases htp : backfillToProcess y m images none with
    | nil => simp [backfillRun, htp, rowsOf]
    | cons i l =>
      unfold backfillRun
      rw [htp, backfillFold_fresh y m oracle i l none rfl]
      simp [rowsOf]
  | some rs =>
    cases rs with
    | nil =>
      cases htp : backfillToProcess y m images (some []) with
      | nil => simp [backfillRun, htp, rowsOf]
      | cons i l =>
        unfold backfillRun
        rw [htp, backfillFold_fresh y m oracle i l (some []) rfl]
        simp [rowsOf]
    | cons hdr rrs =>
      unfold backfillRun
      rw [backfillFold_some y m oracle _ (hdr :: rrs) (by simp)]
      simp [rowsOf]

lemma logTimestamps_backfillRun (y m : String) (images : List ImgFile)
    (oracle : ImgFile → Option ℚ × String) (log : Option CsvFile) :
    logTimestamps (backfillRun y m images log oracle) =
      logTimestamps log ++ (backfillToProcess y m images log).map (timestampOf y m) := by
  cases hlog : log with
  | none =>
    cases htp : backfillToProcess y m images none with
    | nil => simp [backfillRun, htp, logTimestamps, rowsOf]
    | cons i l =>
      unfold backfillRun
      rw [htp, backfillFold_fresh y m oracle i l none rfl]
      simp only [logTimestamps, rowsOf, Option.getD_some, Option.getD_none,
        List.tail_cons, List.tail_nil, List.map_map, List.map_nil, List.nil_append]
      rfl
  | some rs =>
    cases rs with
    | nil =>
      cases htp : backfillToProcess y m images (some []) with
      | nil => simp [backfillRun, htp, logTimestamps, rowsOf]
      | cons i l =>
        unfold backfillRun
        rw [htp, backfillFold_fresh y m oracle i l (some []) rfl]
        simp only [logTimestamps, rowsOf, Option.getD_some, List.tail_cons, List.tail_nil,
          List.map_map, List.map_nil, List.nil_append]
        rfl
    | cons hdr rrs =>
      unfold backfillRun
      rw [backfillFold_some y m oracle _ (hdr :: rrs) (by simp)]
      simp only [logTimestamps, rowsOf, Option.getD_some, List.cons_append, List.tail_cons,
        List.map_append, List.map_map]
      rfl

lemma length_filter_not {α : Type} (p : α → Bool) (l : List α) :
    (l.filter (fun x => !(p x))).length = l.length - (l.filter p).length := by
  induction l with
  | nil => simp
  | cons x xs ih =>
    have hle : (xs.filter p).length ≤ xs.length := (List.filter_sublist xs).length_le
    by_cases hp : p x = true
    · simp [hp, ih]
    · simp [hp, ih]
      omega

lemma contains_eq_mem (l : List String) (a : String) : l.contains a = true ↔ a ∈ l := by
  simp

/-- Stripped-timestamp view of a whole run, for membership reasoning, for the
canonical log shapes. -/
lemma load_existing_backfillRun (y m : String) (images : List ImgFile)
    (oracle : ImgFile → Option ℚ × String) (log : Option CsvFile)
    (hlog : log = none ∨ log = some [] ∨ ∃ rs, log = some (csvHeader :: rs)) :
    load_existing_timestamps (backfillRun y m images log oracle) =
      load_existing_timestamps log ++
        (backfillToProcess y m images log).map (fun i => pyStrip (timestampOf y m i)) := by
  rcases hlog with rfl | rfl | ⟨rs, rfl⟩
  · cases htp : backfillToProcess y m images none with
    | nil => simp [backfillRun, htp, load_existing_timestamps]
    | cons i l =>
      unfold backfillRun
      rw [htp, backfillFold_fresh y m oracle i l none rfl]
      unfold load_existing_timestamps
      simp only [List.nil_append, List.map_map]
      apply List.map_congr_left
      intro img _
      rw [Function.comp_apply, show rowField csvHeader (mkDataRow y m oracle img)
        ("timestamp") = (mkDataRow y m oracle img).headD "" from rowField_header_ts _]
      rfl
  · cases htp : backfillToProcess y m images (some []) with
    | nil => simp [backfillRun, htp, load_existing_timestamps]
    | cons i l =>
      unfold backfillRun
      rw [htp, backfillFold_fresh y m oracle i l (some []) rfl]
      unfold load_existing_timestamps
      simp only [List.nil_append, List.map_map]
      apply List.map_congr_left
      intro img _
      rw [Function.comp_apply, show rowField csvHeader (mkDataRow y m oracle img)
        ("timestamp") = (mkDataRow y m oracle img).headD "" from rowField_header_ts _]
      rfl
  · unfold backfillRun
    rw [backfillFold_some y m oracle _ (csvHeader :: rs) (by simp)]
    unfold load_existing_timestamps
    simp only [List.cons_append, List.map_append, List.map_map]
    congr 1

/-- C2: over a month with `M` images of which `E` have their derived timestamp
already logged, one run dispatches exactly `M − E` images (the worklist
length), appends exactly `M − E` data rows, and an immediate second run over
the same images appends nothing (it returns the log unchanged, whatever the
oracle then answers).  Hypotheses: the log has the canonical header (or does
not exist yet / is empty), and the derived timestamps are whitespace-clean so
that `DictReader` + `strip()` reads back what was written. -/
theorem C2_backfill_counts :
    ∀ (y m : String) (images : List ImgFile) (log : Option CsvFile)
      (oracle oracle2 : ImgFile → Option ℚ × String),
    (log = none ∨ log = some [] ∨ ∃ rs, log = some (csvHeader :: rs)) →
    (∀ img ∈ images, pyStrip (timestampOf y m img) = timestampOf y m img) →
    (backfillToProcess y m images log).length =
      images.length - (images.filter (fun i =>
        (load_existing_timestamps log).contains (timestampOf y m i))).length ∧
    (logTimestamps (backfillRun y m images log oracle)).length =
      (logTimestamps log).length + (backfillToProcess y m images log).length ∧
    backfillRun y m images (backfillRun y m images log oracle) oracle2 =
      backfillRun y m images log oracle := by
  intro y m images log oracle oracle2 hlog ht
  refine ⟨?_, ?_, ?_⟩
  · unfold backfillToProcess
    exact length_filter_not _ images
  · rw [logTimestamps_backfillRun]
    simp
  · have hmem : ∀ img ∈ images,
        timestampOf y m img ∈ load_existing_timestamps (backfillRun y m images log oracle) := by
      intro img hi
      rw [load_existing_backfillRun y m images oracle log hlog]
      by_cases hc : (load_existing_timestamps log).contains (timestampOf y m img) = true
      · exact List.mem_append_left _ ((contains_eq_mem _ _).1 hc)
      · refine List.mem_append_right _ ?_
        have hc' : (load_existing_timestamps log).contains (timestampOf y m img) = false := by
          simpa using hc
        have himg : img ∈ backfillToProcess y m images log := by
          unfold backfillToProcess
          exact List.mem_filter.2 ⟨hi, by simp only [hc', Bool.not_false]⟩
        exact List.mem_map.2 ⟨img, himg, ht img hi⟩
    have htp2 : backfillToProcess y m images (backfillRun y m images log oracle) = [] := by
      unfold backfillToProcess
      rw [List.filter_eq_nil_iff]
      intro img hi
      have hcontains := (contains_eq_mem _ _).2 (hmem img hi)
      simp only [hcontains, Bool.not_true]
      simp
    show (backfillToProcess y m images (backfillRun y m images log oracle)).foldl
        (backfillStep y m oracle2) (backfillRun y m images log oracle) =
      backfillRun y m images log oracle
    rw [htp2]
    rfl

/-- Closed witness for `C2_backfill_counts`: two images, one already logged —
the worklist has one image, and the second run is a no-op. -/
theorem C2_backfill_counts_witness :
    (backfillToProcess ("2026") ("01") [⟨("05"), ("09")⟩, ⟨("05"), ("10")⟩]
        (some [csvHeader, [("2026-01-05 09:00"), ("25.0"), ("clear")]])).length = 1 ∧
    backfillRun ("2026") ("01") [⟨("05"), ("09")⟩, ⟨("05"), ("10")⟩]
        (backfillRun ("2026") ("01") [⟨("05"), ("09")⟩, ⟨("05"), ("10")⟩]
          (some [csvHeader, [("2026-01-05 09:00"), ("25.0"), ("clear")]])
          (fun _ => (some 15, ("ok"))))
        (fun _ => (none, "")) =
      backfillRun ("2026") ("01") [⟨("05"), ("09")⟩, ⟨("05"), ("10")⟩]
        (some [csvHeader, [("2026-01-05 09:00"), ("25.0"), ("clear")]])
        (fun _ => (some 15, ("ok"))) := by
  have h := C2_backfill_counts ("2026") ("01") [⟨("05"), ("09")⟩, ⟨("05"), ("10")⟩]
    (some [csvHeader, [("2026-01-05 09:00"), ("25.0"), ("clear")]])
    (fun _ => (some 15, ("ok"))) (fun _ => (none, ""))
    (Or.inr (Or.inr ⟨[[("2026-01-05 09:00"), ("25.0"), ("clear")]], rfl⟩))
    (by decide)
  exact ⟨h.1.trans (by decide), h.2.2⟩

/-- C3 (amended): if additionally no two files in the month derive the same
timestamp string — true of the canonical `DD/HH.png` layout — then a backfill
run started from a log with pairwise-distinct timestamps leaves the data rows
pairwise-distinct.  (The claim as frozen omits that proviso and is refuted by
`C3_duplicate_counterexample`.) -/
theorem C3_unique_timestamps_amended :
    ∀ (y m : String) (images : List ImgFile) (log : Option CsvFile)
      (oracle : ImgFile → Option ℚ × String),
    (log = none ∨ log = some [] ∨ ∃ rs, log = some (csvHeader :: rs)) →
    (∀ img ∈ images, pyStrip (timestampOf y m img) = timestampOf y m img) →
    (images.map (timestampOf y m)).Nodup →
    (logTimestamps log).Nodup →
    (logTimestamps (backfillRun y m images log oracle)).Nodup := by
  intro y m images log oracle hlog ht himgs hlogn
  rw [logTimestamps_backfillRun]
  have h1 : List.Sublist (backfillToProcess y m images log) images := by
    unfold backfillToProcess
    exact List.filter_sublist images
  refine List.Nodup.append hlogn (List.Nodup.sublist (h1.map _) himgs) ?_
  intro a ha hb
  obtain ⟨img, himgtp, rfl⟩ := List.mem_map.1 hb
  have hfilter := List.mem_filter.1 (by
    have := himgtp
    unfold backfillToProcess at this
    exact this)
  have hnotin : timestampOf y m img ∉ load_existing_timestamps log := by
    intro hmem
    have hctrue := (contains_eq_mem _ _).2 hmem
    have := hfilter.2
    rw [hctrue] at this
    simp at this
  rcases hlog with rfl | rfl | ⟨rs, rfl⟩
  · simp [logTimestamps, rowsOf] at ha
  · simp [logTimestamps, rowsOf] at ha
  · simp only [logTimestamps, rowsOf, Option.getD_some, List.tail_cons] at ha
    obtain ⟨r, hr, hrts⟩ := List.mem_map.1 ha
    apply hnotin
    unfold load_existing_timestamps
    refine List.mem_map.2 ⟨r, hr, ?_⟩
    rw [rowField_header_ts, hrts]
    exact ht img hfilter.1

/-- The frozen C3 fails on the code: two files `05/9.png` and `05/09.png` in
one month both zero-fill to hour `09`, are both absent from the (empty) log,
and are both appended — yielding two rows with the identical timestamp
`2026-01-05 09:00` even though the starting log was duplicate-free. -/
theorem C3_duplicate_counterexample :
    (logTimestamps (none : Option CsvFile)).Nodup ∧
    ¬ (logTimestamps (backfillRun ("2026") ("01")
        [⟨("05"), ("9")⟩, ⟨("05"), ("09")⟩] none (fun _ => (none, "")))).Nodup := by
  constructor
  · simp [logTimestamps, rowsOf]
  · decide

/-- Closed witness for `C3_unique_timestamps_amended`. -/
theorem C3_unique_timestamps_witness :
    (logTimestamps (backfillRun ("2026") ("01") [⟨("05"), ("09")⟩] none
        (fun _ => (none, ("dark"))))).Nodup :=
  C3_unique_timestamps_amended ("2026") ("01") [⟨("05"), ("09")⟩] none _
    (Or.inl rfl) (by decide) (by decide) (by decide)

/-! ### Capture gating and housekeeping (`grab_snapshot.py`) -/

/-- `within_window` (lines 142–143): inclusive hour range.  The bounds come
from flags/environment as Python ints, hence `Int`. -/
def within_window (hour start_h end_h : Int) : Bool :=
  start_h ≤ hour && hour ≤ end_h

/-- One snapshot file `snapshots/<y>/<m>/<d>/<stem>.png`, identified by its
path components as the housekeeping pass sees it (`p.stem` is the filename
without the `.png`). -/
structure SnapPath where
  y : String
  m : String
  d : String
  stem : String
deriving DecidableEq

/-- The per-file keep test of `clean_outside_window` (lines 146–160): a file
with a non-digit stem is skipped (kept); a digit stem is kept exactly when its
hour lies within the window. -/
def keepSnap (start_h end_h : Int) (p : SnapPath) : Bool :=
  if stemIsDigit p.stem then within_window (parseNat p.stem : Int) start_h end_h
  else true

/-- `clean_outside_window`: delete every snapshot whose digit filename hour is
outside the window. -/
def clean_outside_window (start_h end_h : Int) (fs : List SnapPath) : List SnapPath :=
  fs.filter (keepSnap start_h end_h)

/-- The local clock at the start of `main` (`datetime.now()`), by fields. -/
structure Clock where
  year : Nat
  month : Nat
  day : Nat
  hour : Nat
  minute : Nat
deriving DecidableEq

/-- `now.strftime("%Y-%m-%d %H:%M")` (line 412): the live-capture log
timestamp, carrying the actual capture minute. -/
def liveTimestamp (t : Clock) : String :=
  fmt4 t.year ++ ("-") ++ fmt2 t.month ++ ("-") ++ fmt2 t.day ++ (" ") ++
    fmt2 t.hour ++ (":") ++ fmt2 t.minute

/-- Observable effects of one `main` run (lines 391–427): the snapshot file
created (if any), the visibility log afterwards, and the snapshot corpus after
housekeeping. -/
structure MainResult where
  created : Option SnapPath
  log : Option CsvFile
  fs : List SnapPath
deriving DecidableEq

/-- The capture entry point `main` (lines 391–427), on the success path of
`capture_snapshot`: the hour gate uses `int(now.strftime("%H"), 10)`; inside
the window one file `<H>.png` is (over)written for the current hour slot, the
oracle's answer is appended to the log with the minute-precision timestamp,
and housekeeping runs; outside the window nothing is captured or logged, but
housekeeping still runs.  The manifest rebuilds are modelled separately
(`build_last7days`, `build_months_manifest`). -/
def grabMain (t : Clock) (start_h end_h : Int) (fs : List SnapPath)
    (log : Option CsvFile) (oracle : Option ℚ × String) : MainResult :=
  let H := fmt2 t.hour
  let hour_num : Int := (parseNat H : Int)
  if within_window hour_num start_h end_h then
    let f : SnapPath := ⟨fmt4 t.year, fmt2 t.month, fmt2 t.day, H⟩
    let fs1 := if fs.contains f then fs else fs ++ [f]
    ⟨some f, some (append_visibility_csv log (liveTimestamp t) oracle.1 oracle.2),
      clean_outside_window start_h end_h fs1⟩
  else ⟨none, log, clean_outside_window start_h end_h fs⟩

lemma parseNat_fmt2 (h : Nat) (hh : h < 100) : parseNat (fmt2 h) = h := by
  revert h
  decide

/-- C5: for every hour outside the inclusive window, housekeeping removes
every snapshot file whose digit filename hour is that hour (none survives in
the cleaned corpus), and a `main` run during such an hour creates no snapshot
file — it leaves the corpus to housekeeping only and the log untouched. -/
theorem C5_window_purge :
    (∀ (start_h end_h : Int) (fs : List SnapPath) (p : SnapPath) (h : Int),
      stemIsDigit p.stem = true → (parseNat p.stem : Int) = h →
      within_window h start_h end_h = false →
      p ∉ clean_outside_window start_h end_h fs) ∧
    (∀ (t : Clock) (start_h end_h : Int) (fs : List SnapPath) (log : Option CsvFile)
      (oracle : Option ℚ × String), t.hour < 24 →
      within_window (t.hour : Int) start_h end_h = false →
      (grabMain t start_h end_h fs log oracle).created = none ∧
      (grabMain t start_h end_h fs log oracle).fs = clean_outside_window start_h end_h fs ∧
      (grabMain t start_h end_h fs log oracle).log = log) := by
  constructor
  · intro start_h end_h fs p h hd hp hw hmem
    have := (List.mem_filter.1 hmem).2
    rw [keepSnap, if_pos hd, hp, hw] at this
    exact Bool.false_ne_true this
  · intro t start_h end_h fs log oracle hlt hw
    have hgate : within_window ((parseNat (fmt2 t.hour) : Nat) : Int) start_h end_h = false := by
      rw [parseNat_fmt2 t.hour (by omega)]
      exact hw
    unfold grabMain
    simp [hgate]

/-- Closed witness for `C5_window_purge`: hour 22 outside the default window
6–19 is purged and never captured. -/
theorem C5_window_purge_witness :
    ⟨("2026"), ("01"), ("05"), ("22")⟩ ∉
      clean_outside_window 6 19 [⟨("2026"), ("01"), ("05"), ("22")⟩] ∧
    (grabMain ⟨2026, 1, 5, 22, 30⟩ 6 19 [⟨("2026"), ("01"), ("05"), ("22")⟩]
      none (none, "")).created = none :=
  ⟨C5_window_purge.1 6 19 _ _ 22 (by decide) (by decide) (by decide),
   (C5_window_purge.2 ⟨2026, 1, 5, 22, 30⟩ 6 19 _ none (none, "")
     (by decide) (by decide)).1⟩

lemma str_data_append (a b : String) : (a ++ b).data = a.data ++ b.data := rfl

lemma str_append_left_cancel {a b c : String} (h : a ++ b = a ++ c) : b = c := by
  have hd := congrArg String.data h
  rw [str_data_append, str_data_append] at hd
  exact String.ext (List.append_cancel_left hd)

lemma fmt2_eq_00_iff : ∀ n, n < 60 → ((fmt2 n = ("00")) ↔ n = 0) := by
  decide

/-- C9: every row the backfill scheduler appends carries a timestamp of the
shape `<y>-<m>-<day> <zero-padded stem>:00` — the minute field is the literal
`00` — while the live-capture path logs `strftime("%Y-%m-%d %H:%M")` with the
actual capture minute; hence, with matching date and hour fields, the two
writers produce the identical timestamp string (the unit of the backfill's
string-equality deduplication) exactly when the live minute was zero. -/
theorem C9_timestamp_formats :
    (∀ (y m : String) (img : ImgFile),
      timestampOf y m img =
        (y ++ ("-") ++ m ++ ("-") ++ img.day ++ (" ") ++ zfill 2 img.stem) ++ (":00")) ∧
    (∀ (y m : String) (images : List ImgFile) (log : Option CsvFile)
      (oracle : ImgFile → Option ℚ × String) (row : List String),
      row ∈ rowsOf (backfillRun y m images log oracle) → row ∉ rowsOf log →
      row ≠ csvHeader → ∃ img ∈ images, row.headD "" = timestampOf y m img) ∧
    (∀ (t : Clock) (start_h end_h : Int) (fs : List SnapPath) (log : Option CsvFile)
      (oracle : Option ℚ × String),
      within_window ((parseNat (fmt2 t.hour) : Nat) : Int) start_h end_h = true →
      (grabMain t start_h end_h fs log oracle).log =
        some (append_visibility_csv log (liveTimestamp t) oracle.1 oracle.2)) ∧
    (∀ (t : Clock) (y m : String) (img : ImgFile), t.minute < 60 →
      y = fmt4 t.year → m = fmt2 t.month → img.day = fmt2 t.day →
      zfill 2 img.stem = fmt2 t.hour →
      (liveTimestamp t = timestampOf y m img ↔ t.minute = 0)) := by
  refine ⟨fun y m img => rfl, ?_, ?_, ?_⟩
  · intro y m images log oracle row hrow hold hhdr
    rw [rowsOf_backfillRun] at hrow
    rcases List.mem_append.1 hrow with h1 | h2
    · rcases List.mem_append.1 h1 with h3 | h4
      · exact absurd h3 hold
      · by_cases hc : ((rowsOf log).isEmpty &&
            !(backfillToProcess y m images log).isEmpty) = true
        · rw [if_pos hc] at h4
          simp only [List.mem_singleton] at h4
          exact absurd h4 hhdr
        · rw [if_neg hc] at h4
          simp at h4
    · obtain ⟨img, himg, heq⟩ := List.mem_map.1 h2
      have hin : img ∈ images := by
        have h5 := himg
        unfold backfillToProcess at h5
        exact (List.mem_filter.1 h5).1
      refine ⟨img, hin, ?_⟩
      rw [← heq]
      rfl
  · intro t start_h end_h fs log oracle hg
    unfold grabMain
    simp [hg]
  · intro t y m img hmin hy hm hd hstem
    subst hy
    subst hm
    unfold liveTimestamp timestampOf
    rw [hd, hstem]
    have hsplit :
        fmt4 t.year ++ ("-") ++ fmt2 t.month ++ ("-") ++ fmt2 t.day ++ (" ") ++
            fmt2 t.hour ++ (":00") =
          (fmt4 t.year ++ ("-") ++ fmt2 t.month ++ ("-") ++ fmt2 t.day ++ (" ") ++
            fmt2 t.hour ++ (":")) ++ ("00") := by
      simp only [String.append_assoc]
      rfl
    rw [hsplit]
    constructor
    · intro heq
      have := str_append_left_cancel heq
      exact ((fmt2_eq_00_iff t.minute hmin).1 this)
    · intro h0
      rw [h0]
      rfl

/-- Closed witness for `C9_timestamp_formats` at a concrete clock, image and
run: the appended backfill row derives from the image, the live append uses
the minute-precision timestamp, and the two match exactly at minute zero. -/
theorem C9_timestamp_formats_witness :
    (∃ img ∈ [(⟨("05"), ("9")⟩ : ImgFile)],
      ([("2026-01-05 09:00"), "", ("dark")] : List String).headD "" =
        timestampOf ("2026") ("01") img) ∧
    (grabMain ⟨2026, 1, 5, 9, 0⟩ 6 19 [] none (none, ("dark"))).log =
      some (append_visibility_csv none (liveTimestamp ⟨2026, 1, 5, 9, 0⟩) none ("dark")) ∧
    (liveTimestamp ⟨2026, 1, 5, 9, 0⟩ = timestampOf ("2026") ("01") ⟨("05"), ("9")⟩ ↔
      (0 : Nat) = 0) :=
  ⟨C9_timestamp_formats.2.1 ("2026") ("01") [⟨("05"), ("9")⟩] none
      (fun _ => (none, ("dark"))) _ (by decide) (by decide) (by decide),
   C9_timestamp_formats.2.2.1 ⟨2026, 1, 5, 9, 0⟩ 6 19 [] none (none, ("dark")) (by decide),
   C9_timestamp_formats.2.2.2 ⟨2026, 1, 5, 9, 0⟩ ("2026") ("01") ⟨("05"), ("9")⟩
     (by decide) (by decide) (by decide) (by decide) (by decide)⟩

/-! ### Path suffix/stem (`pathlib.PurePath.suffix` / `.stem`) -/

/-- Split a character list at its last `'.'`: `some (before, after)`, or
`none` when no dot occurs. -/
def splitLastDot : List Char → Option (List Char × List Char)
  | [] => none
  | c :: cs =>
    match splitLastDot cs with
    | some (a, b) => some (c :: a, b)
    | none => if c = '.' then some ([], cs) else none

/-- `PurePath.suffix`: `name[i:]` for `i = name.rfind('.')` when
`0 < i < len(name) - 1`, else the empty string. -/
def pySuffix (s : String) : String :=
  match splitLastDot s.data with
  | some (a, b) => if a ≠ [] ∧ b ≠ [] then String.mk ('.' :: b) else ""
  | none => ""

/-- `PurePath.stem`: the name with its suffix removed. -/
def pyStem (s : String) : String :=
  let suf := pySuffix s
  if suf = "" then s else String.mk (s.data.take (s.data.length - suf.data.length))

/-- `fnmatch` of the glob pattern `*.png` against a file name. -/
def globPng (s : String) : Bool := decide ((".png").data <:+ s.data)

/-! ### Last-7-days builder (`grab_snapshot.py`, lines 163–241) -/

/-- `|hour − noon|` for a file's parsed stem. -/
def hourDiff (name : String) : Nat := ((parseNat (pyStem name) : Int) - 12).natAbs

/-- The body of the selection loop (lines 211–221): skip non-digit stems and
out-of-window hours; strictly smaller distance to noon replaces the best. -/
def bestStep (start_h end_h : Int) (acc : Option String × Nat) (name : String) :
    Option String × Nat :=
  let h_str := pyStem name
  if stemIsDigit h_str then
    let h : Int := (parseNat h_str : Int)
    if within_window h start_h end_h then
      let d := (h - 12).natAbs
      if d < acc.2 then (some name, d) else acc
    else acc
  else acc

/-- The per-day selection (`best_file`/`best_diff` fold, initial best
`10 ** 9`), over the day directory's `*.png` names in iteration order. -/
def bestOfDay (start_h end_h : Int) (files : List String) : Option String :=
  (files.foldl (bestStep start_h end_h) (none, 10 ^ 9)).1

/-- A file that the selection loop does not skip: digit stem, in-window. -/
def dayKeep (start_h end_h : Int) (name : String) : Bool :=
  stemIsDigit (pyStem name) && within_window ((parseNat (pyStem name) : Nat) : Int) start_h end_h

/-- One parsed visibility record: `float(vis)` result (`None` on failure) and
the conditions text (`_load_visibility_data`, lines 178–181). -/
structure VisInfo where
  visibility_ft : Option ℚ
  conditions : String
deriving DecidableEq

/-- The record `_load_visibility_data` stores for one CSV row. -/
def mkInfo (hdr row : List String) : VisInfo :=
  { visibility_ft := parseDecimal? (pyStrip (rowField hdr row ("visibility_ft")))
    conditions := pyStrip (rowField hdr row ("conditions")) }

/-- One iteration of the `_load_visibility_data` reader loop: skip rows with
an empty stripped timestamp, otherwise overwrite the dict at key `ts[:13]`. -/
def visRow (hdr : List String) (vd : String → Option VisInfo) (row : List String) :
    String → Option VisInfo :=
  let ts := pyStrip (rowField hdr row ("timestamp"))
  if ts = "" then vd
  else fun key => if key = pyTake 13 ts then some (mkInfo hdr row) else vd key

/-- `_load_visibility_data` (lines 163–182) as a lookup function keyed by
`"YYYY-MM-DD HH"`; later rows overwrite earlier ones at the same key. -/
def visDataOf (file : Option CsvFile) : String → Option VisInfo :=
  match file with
  | none => fun _ => none
  | some [] => fun _ => none
  | some (hdr :: rs) => rs.foldl (visRow hdr) (fun _ => none)

/-- The enrichment step (lines 231–238): visibility fields are attached to an
entry only when a record exists at the key and its `visibility_ft` parsed. -/
def enrich (vd : String → Option VisInfo) (key : String) : Option (ℚ × String) :=
  match vd key with
  | some info =>
    match info.visibility_ft with
    | some q => some (q, info.conditions)
    | none => none
  | none => none

/-- One manifest entry: `{file, date, time}` plus the optional
`visibility_ft`/`conditions` pair. -/
structure Entry where
  file : String
  date : String
  time : String
  vis : Option (ℚ × String)
deriving DecidableEq

/-- One calendar day as the builder sees it: the `strftime` components of
`now - offset` and the day directory's `*.png` names (or `none` when the day
directory does not exist). -/
structure DayCtx where
  y : String
  m : String
  d : String
  dir : Option (List String)

/-- The per-day body of `build_last7days` (lines 199–238): missing day
directories and days with no in-window snapshot yield no entry; otherwise the
closest-to-noon snapshot is copied and enriched. -/
def mkDayEntry (vd : String → Option VisInfo) (start_h end_h : Int)
    (day : DayCtx) : Option Entry :=
  match day.dir with
  | none => none
  | some files =>
    match bestOfDay start_h end_h files with
    | none => none
    | some best =>
      let stem := pyStem best
      let date := day.y ++ ("-") ++ day.m ++ ("-") ++ day.d
      some { file := date ++ ("_") ++ stem ++ (".png")
             date := date
             time := stem
             vis := enrich vd (date ++ (" ") ++ zfill 2 stem) }

/-- `build_last7days`: the manifest over the seven day contexts (most recent
first), fully rebuilt from the corpus and the visibility log. -/
def build_last7days (days : List DayCtx) (log : Option CsvFile)
    (start_h end_h : Int) : List Entry :=
  days.filterMap (mkDayEntry (visDataOf log) start_h end_h)

/-- The skip-free core of the selection fold. -/
def selStep {α : Type} (key : α → Nat) (acc : Option α × Nat) (x : α) : Option α × Nat :=
  if key x < acc.2 then (some x, key x) else acc

/-- Proof-side left-to-right first argmin. -/
def firstMinAux {α : Type} (key : α → Nat) (b : α) : List α → α
  | [] => b
  | x :: xs => if key x < key b then firstMinAux key x xs else firstMinAux key b xs

lemma bestStep_eq (start_h end_h : Int) (acc : Option String × Nat) (f : String) :
    bestStep start_h end_h acc f =
      if dayKeep start_h end_h f then selStep hourDiff acc f else acc := by
  unfold bestStep dayKeep selStep hourDiff
  by_cases h1 : stemIsDigit (pyStem f) = true
  · by_cases h2 : within_window ((parseNat (pyStem f) : Nat) : Int) start_h end_h = true
    · simp [h1, h2]
    · simp [h1, h2]
  · simp [h1]

lemma bestFold_eq_selFold (start_h end_h : Int) (files : List String) :
    ∀ acc, files.foldl (bestStep start_h end_h) acc =
      (files.filter (dayKeep start_h end_h)).foldl (selStep hourDiff) acc := by
  induction files with
  | nil => intro acc; rfl
  | cons f fs ih =>
    intro acc
    rw [List.foldl_cons, bestStep_eq]
    by_cases hk : dayKeep start_h end_h f = true
    · rw [if_pos hk, List.filter_cons_of_pos hk, List.foldl_cons]
      exact ih _
    · rw [if_neg hk, List.filter_cons_of_neg (by simpa using hk)]
      exact ih _

lemma selFold_some {α : Type} (key : α → Nat) :
    ∀ (l : List α) (b : α),
      l.foldl (selStep key) (some b, key b) =
        (some (firstMinAux key b l), key (firstMinAux key b l)) := by
  intro l
  induction l with
  | nil => intro b; rfl
  | cons x xs ih =>
    intro b
    rw [List.foldl_cons]
    by_cases h : key x < key b
    · have hs : selStep key (some b, key b) x = (some x, key x) := by simp [selStep, h]
      have hm : firstMinAux key b (x :: xs) = firstMinAux key x xs := by
        simp [firstMinAux, h]
      rw [hs, ih x, hm]
    · have hs : selStep key (some b, key b) x = (some b, key b) := by simp [selStep, h]
      have hm : firstMinAux key b (x :: xs) = firstMinAux key b xs := by
        simp [firstMinAux, h]
      rw [hs, ih b, hm]

lemma firstMinAux_split {α : Type} (key : α → Nat) :
    ∀ (l : List α) (b : α), ∃ l1 l2,
      b :: l = l1 ++ firstMinAux key b l :: l2 ∧
      (∀ x ∈ l1, key (firstMinAux key b l) < key x) ∧
      (∀ x ∈ l2, key (firstMinAux key b l) ≤ key x) := by
  intro l
  induction l with
  | nil => intro b; exact ⟨[], [], rfl, by simp, by simp⟩
  | cons x xs ih =>
    intro b
    by_cases h : key x < key b
    · have hfm : firstMinAux key b (x :: xs) = firstMinAux key x xs := by
        simp [firstMinAux, h]
      obtain ⟨l1, l2, hsplit, hl1, hl2⟩ := ih x
      have hfmx : key (firstMinAux key x xs) ≤ key x := by
        cases l1 with
        | nil =>
          have hx : x = firstMinAux key x xs := (List.cons.inj (by simpa using hsplit)).1
          rw [← hx]
        | cons a l1' =>
          have hxa : x = a := (List.cons.inj (by simpa using hsplit)).1
          exact le_of_lt (hxa ▸ hl1 a (List.mem_cons_self a l1'))
      refine ⟨b :: l1, l2, ?_, ?_, ?_⟩
      · rw [hfm, List.cons_append, ← hsplit]
      · intro z hz
        rcases List.mem_cons.1 hz with rfl | hz'
        · rw [hfm]; exact lt_of_le_of_lt hfmx h
        · rw [hfm]; exact hl1 z hz'
      · intro z hz
        rw [hfm]; exact hl2 z hz
    · have hfm : firstMinAux key b (x :: xs) = firstMinAux key b xs := by
        simp [firstMinAux, h]
      obtain ⟨l1, l2, hsplit, hl1, hl2⟩ := ih b
      cases l1 with
      | nil =>
        have hinj := List.cons.inj (by simpa using hsplit)
        refine ⟨[], x :: l2, ?_, by simp, ?_⟩
        · rw [hfm, ← hinj.1, List.nil_append, ← hinj.2]
        · intro z hz
          rcases List.mem_cons.1 hz with rfl | hz'
          · rw [hfm, ← hinj.1]
            exact le_of_not_lt h
          · rw [hfm]; exact hl2 z hz'
      | cons a l1' =>
        have hinj := List.cons.inj (by simpa using hsplit)
        refine ⟨a :: x :: l1', l2, ?_, ?_, ?_⟩
        · rw [hfm]
          show b :: x :: xs = a :: (x :: (l1' ++ firstMinAux key b xs :: l2))
          rw [← hinj.1, ← hinj.2]
        · intro w hw
          have hfb : key (firstMinAux key b xs) < key b := by
            have h0 := hl1 a (List.mem_cons_self a l1')
            rwa [← hinj.1] at h0
          rcases List.mem_cons.1 hw with rfl | hw'
          · rw [hfm]
            exact hl1 _ (List.mem_cons_self _ _)
          · rcases List.mem_cons.1 hw' with rfl | hw''
            · rw [hfm]
              exact lt_of_lt_of_le hfb (le_of_not_lt h)
            · rw [hfm]
              exact hl1 _ (List.mem_cons_of_mem _ hw'')
        · intro w hw
          rw [hfm]; exact hl2 w hw

/-- C4: per day, among the files with digit stems whose hours lie in the
window, the selection returns exactly the first file minimizing `|hour − 12|`
(strictly better than everything before it, at least as good as everything
after it); a day with no such file yields `none` and hence no manifest entry;
and on the spec's example `{09, 13, 18}` with window `[6, 19]` hour 13 wins.
The hour bound (≤ 23, i.e. below the `10 ** 9` initial best) is what makes
stems genuine hours. -/
lemma bestOfDay_none (start_h end_h : Int) (files : List String)
    (hnil : files.filter (dayKeep start_h end_h) = []) :
    bestOfDay start_h end_h files = none := by
  unfold bestOfDay
  rw [bestFold_eq_selFold, hnil]
  rfl

theorem C4_noon_selection :
    ∀ (start_h end_h : Int) (files : List String),
    (∀ f ∈ files.filter (dayKeep start_h end_h), parseNat (pyStem f) ≤ 23) →
    (files.filter (dayKeep start_h end_h) = [] → bestOfDay start_h end_h files = none) ∧
    (files.filter (dayKeep start_h end_h) ≠ [] → ∃ best l1 l2,
      bestOfDay start_h end_h files = some best ∧
      files.filter (dayKeep start_h end_h) = l1 ++ best :: l2 ∧
      (∀ f ∈ l1, hourDiff best < hourDiff f) ∧
      (∀ f ∈ l2, hourDiff best ≤ hourDiff f) ∧
      (∀ f ∈ files.filter (dayKeep start_h end_h), hourDiff best ≤ hourDiff f)) ∧
    (∀ (vd : String → Option VisInfo) (day : DayCtx) (dayFiles : List String),
      day.dir = some dayFiles → dayFiles.filter (dayKeep start_h end_h) = [] →
      mkDayEntry vd start_h end_h day = none) ∧
    bestOfDay 6 19 [("09.png"), ("13.png"), ("18.png")] = some ("13.png") := by
  intro start_h end_h files hb
  have hfold : bestOfDay start_h end_h files =
      ((files.filter (dayKeep start_h end_h)).foldl (selStep hourDiff) (none, 10 ^ 9)).1 := by
    unfold bestOfDay
    rw [bestFold_eq_selFold]
  refine ⟨?_, ?_, ?_, by decide⟩
  · intro hnil
    exact bestOfDay_none start_h end_h files hnil
  · intro hne
    obtain ⟨x, xs, hxs⟩ : ∃ x xs, files.filter (dayKeep start_h end_h) = x :: xs := by
      cases hS : files.filter (dayKeep start_h end_h) with
      | nil => exact absurd hS hne
      | cons x xs => exact ⟨x, xs, rfl⟩
    have hxkey : hourDiff x < 1000000000 := by
      have hx23 : parseNat (pyStem x) ≤ 23 := hb x (by rw [hxs]; exact List.mem_cons_self x xs)
      unfold hourDiff
      omega
    have hstep : selStep hourDiff ((none : Option String), 10 ^ 9) x = (some x, hourDiff x) := by
      simp [selStep, hxkey]
    obtain ⟨l1, l2, hsplit, hl1, hl2⟩ := firstMinAux_split hourDiff xs x
    refine ⟨firstMinAux hourDiff x xs, l1, l2, ?_, ?_, hl1, hl2, ?_⟩
    · rw [hfold, hxs, List.foldl_cons, hstep, selFold_some]
    · rw [hxs, ← hsplit]
    · intro f hf
      rw [hxs, hsplit] at hf
      rcases List.mem_append.1 hf with h1 | h2
      · exact le_of_lt (hl1 f h1)
      · rcases List.mem_cons.1 h2 with rfl | h3
        · exact le_refl _
        · exact hl2 f h3
  · intro vd day dayFiles hdir hnil
    have hbn := bestOfDay_none start_h end_h dayFiles hnil
    simp [mkDayEntry, hdir, hbn]

/-- Closed witness for `C4_noon_selection`: the spec's example, hours
`{09, 13, 18}` in window `[6, 19]`. -/
theorem C4_noon_selection_witness :
    (∀ f ∈ ([("09.png"), ("13.png"), ("18.png")] : List String).filter (dayKeep 6 19),
      parseNat (pyStem f) ≤ 23) ∧
    (∃ best l1 l2,
      bestOfDay 6 19 [("09.png"), ("13.png"), ("18.png")] = some best ∧
      ([("09.png"), ("13.png"), ("18.png")] : List String).filter (dayKeep 6 19) =
        l1 ++ best :: l2 ∧
      (∀ f ∈ l1, hourDiff best < hourDiff f) ∧
      (∀ f ∈ l2, hourDiff best ≤ hourDiff f) ∧
      (∀ f ∈ ([("09.png"), ("13.png"), ("18.png")] : List String).filter (dayKeep 6 19),
        hourDiff best ≤ hourDiff f)) :=
  ⟨by decide,
   (C4_noon_selection 6 19 [("09.png"), ("13.png"), ("18.png")] (by decide)).2.1 (by decide)⟩

lemma mkDayEntry_some_dir (vd : String → Option VisInfo) (start_h end_h : Int)
    (dy dm dd : String) (files : List String) :
    mkDayEntry vd start_h end_h ⟨dy, dm, dd, some files⟩ =
      (bestOfDay start_h end_h files).map (fun best =>
        { file := (dy ++ ("-") ++ dm ++ ("-") ++ dd) ++ ("_") ++ pyStem best ++ (".png")
          date := dy ++ ("-") ++ dm ++ ("-") ++ dd
          time := pyStem best
          vis := enrich vd ((dy ++ ("-") ++ dm ++ ("-") ++ dd) ++ (" ") ++
            zfill 2 (pyStem best)) }) := by
  have h0 : mkDayEntry vd start_h end_h ⟨dy, dm, dd, some files⟩ =
      (match bestOfDay start_h end_h files with
        | none => none
        | some best => some
            { file := (dy ++ ("-") ++ dm ++ ("-") ++ dd) ++ ("_") ++ pyStem best ++ (".png")
              date := dy ++ ("-") ++ dm ++ ("-") ++ dd
              time := pyStem best
              vis := enrich vd ((dy ++ ("-") ++ dm ++ ("-") ++ dd) ++ (" ") ++
                zfill 2 (pyStem best)) }) := rfl
  rw [h0]
  cases bestOfDay start_h end_h files with
  | none => rfl
  | some best => rfl

/-- C10: an entry carries `visibility_ft`/`conditions` exactly when the
consulted record's `visibility_ft` parsed as a float — a record whose value is
the empty sentinel cell or any unparsable text contributes neither field, even
though its conditions text is in the log; the record consulted for a key is
the last row in file order with that `"YYYY-MM-DD HH"` key; and an entry's
fields come from `enrich` at its own date-and-padded-hour key. -/
theorem C10_enrichment :
    (∀ (vd : String → Option VisInfo) (key : String) (info : VisInfo),
      vd key = some info → info.visibility_ft = none → enrich vd key = none) ∧
    (∀ (vd : String → Option VisInfo) (key : String),
      vd key = none → enrich vd key = none) ∧
    (∀ (vd : String → Option VisInfo) (key : String) (info : VisInfo) (q : ℚ),
      vd key = some info → info.visibility_ft = some q →
      enrich vd key = some (q, info.conditions)) ∧
    (∀ hdr row : List String, pyStrip (rowField hdr row ("visibility_ft")) = "" →
      (mkInfo hdr row).visibility_ft = none) ∧
    ((mkInfo csvHeader [("2026-01-05 09:00"), ("murky"), ("low vis")]).visibility_ft
      = none) ∧
    (∀ (hdr : List String) (rs : List (List String)) (r : List String) (key : String),
      visDataOf (some (hdr :: (rs ++ [r]))) key =
        (if pyStrip (rowField hdr r ("timestamp")) = "" then
          visDataOf (some (hdr :: rs)) key
        else if key = pyTake 13 (pyStrip (rowField hdr r ("timestamp"))) then
          some (mkInfo hdr r)
        else visDataOf (some (hdr :: rs)) key)) ∧
    (∀ (vd : String → Option VisInfo) (start_h end_h : Int) (day : DayCtx) (e : Entry),
      mkDayEntry vd start_h end_h day = some e →
      e.vis = enrich vd (e.date ++ (" ") ++ zfill 2 e.time)) := by
  refine ⟨?_, ?_, ?_, ?_, by decide, ?_, ?_⟩
  · intro vd key info h hn
    simp [enrich, h, hn]
  · intro vd key h
    simp [enrich, h]
  · intro vd key info q h hq
    simp [enrich, h, hq]
  · intro hdr row h
    simp only [mkInfo, h]
    decide
  · intro hdr rs r key
    show ((rs ++ [r]).foldl (visRow hdr) (fun _ => none)) key = _
    rw [List.foldl_append]
    simp only [List.foldl_cons, List.foldl_nil]
    by_cases hts : pyStrip (rowField hdr r ("timestamp")) = ""
    · simp only [visRow, hts, if_pos]
      rfl
    · simp only [visRow, if_neg hts]
      rfl
  · intro vd start_h end_h day e h
    obtain ⟨dy, dm, dd, ddir⟩ := day
    cases ddir with
    | none => exact Option.noConfusion h
    | some files =>
      rw [mkDayEntry_some_dir] at h
      cases hbest : bestOfDay start_h end_h files with
      | none =>
        rw [hbest] at h
        exact Option.noConfusion h
      | some best =>
        rw [hbest] at h
        simp only [Option.map_some'] at h
        injection h with h'
        subst h'
        rfl

/-- Closed witness for `C10_enrichment`: a sentinel record adds no fields
despite nonempty conditions text, a parsed record adds both. -/
theorem C10_enrichment_witness :
    enrich (fun _ => some (⟨none, ("too dark")⟩ : VisInfo)) ("2026-01-05 09") = none ∧
    enrich (fun _ => some (⟨some 25, ("clear")⟩ : VisInfo)) ("2026-01-05 09") =
      some ((25 : ℚ), ("clear")) :=
  ⟨C10_enrichment.1 _ ("2026-01-05 09") ⟨none, ("too dark")⟩ rfl rfl,
   C10_enrichment.2.2.1 _ ("2026-01-05 09") ⟨some 25, ("clear")⟩ 25 rfl rfl⟩

/-! ### Months manifest (`build_months_manifest`, lines 244–258) -/

/-- Python string comparison (lexicographic by code point), as `sorted` uses
on directory names. -/
def lexLe : List Char → List Char → Bool
  | [], _ => true
  | _ :: _, [] => false
  | a :: as, b :: bs =>
    if a.toNat < b.toNat then true
    else if b.toNat < a.toNat then false
    else lexLe as bs

/-- Insertion step of the `sorted` model. -/
def insertLe {α : Type} (le : α → α → Bool) (x : α) : List α → List α
  | [] => [x]
  | y :: ys => if le x y then x :: y :: ys else y :: insertLe le x ys

/-- Python `sorted` (ascending, stable), as insertion sort. -/
def pySorted {α : Type} (le : α → α → Bool) : List α → List α
  | [] => []
  | x :: xs => insertLe le x (pySorted le xs)

/-- A month directory: its name and the names of all files anywhere under its
tree (what `rglob` iterates). -/
structure MonthDir where
  name : String
  files : List String

/-- A year directory and its month subdirectories. -/
structure YearDir where
  name : String
  months : List MonthDir

/-- `any(p.suffix == ".png" for p in month_dir.rglob("*.png"))` (line 253). -/
def hasPng (md : MonthDir) : Bool :=
  md.files.any (fun f => globPng f && decide (pySuffix f = (".png")))

/-- `sorted` key for month directories (path order within one parent). -/
def monthLe (a b : MonthDir) : Bool := lexLe a.name.data b.name.data

/-- `sorted` key for year directories. -/
def yearLe (a b : YearDir) : Bool := lexLe a.name.data b.name.data

/-- The inner loop of `build_months_manifest` for one year directory. -/
def monthsOf (yd : YearDir) : List (String × String) :=
  ((pySorted monthLe yd.months).filter hasPng).map (fun md => (yd.name, md.name))

/-- The nested year/month loops, appending in iteration order. -/
def concatMonths : List YearDir → List (String × String)
  | [] => []
  | yd :: rest => monthsOf yd ++ concatMonths rest

/-- `build_months_manifest`: sorted years, sorted months, months with at
least one PNG under their tree. -/
def build_months_manifest (corpus : List YearDir) : List (String × String) :=
  concatMonths (pySorted yearLe corpus)

/-- Ascending order on `(year, month)` pairs as the spec's "sorted
ascending": strictly later year, or same year and month not earlier. -/
def pairLE (p q : String × String) : Prop :=
  (lexLe p.1.data q.1.data = true ∧ p.1 ≠ q.1) ∨
  (p.1 = q.1 ∧ lexLe p.2.data q.2.data = true)

lemma lexLe_total : ∀ as bs : List Char, lexLe as bs = true ∨ lexLe bs as = true := by
  intro as
  induction as with
  | nil => intro bs; left; rfl
  | cons a as ih =>
    intro bs
    cases bs with
    | nil => right; rfl
    | cons b bs =>
      by_cases h1 : a.toNat < b.toNat
      · left; simp [lexLe, h1]
      · by_cases h2 : b.toNat < a.toNat
        · right; simp [lexLe, h2]
        · have := ih bs
          rcases this with h | h
          · left; simp [lexLe, h1, h2, h]
          · right; simp [lexLe, h1, h2, h]

lemma lexLe_trans : ∀ as bs cs : List Char,
    lexLe as bs = true → lexLe bs cs = true → lexLe as cs = true := by
  intro as
  induction as with
  | nil => intro bs cs _ _; rfl
  | cons a as ih =>
    intro bs cs hab hbc
    cases bs with
    | nil => simp [lexLe] at hab
    | cons b bs =>
      cases cs with
      | nil => simp [lexLe] at hbc
      | cons c cs =>
        by_cases hab1 : a.toNat < b.toNat
        · by_cases hbc1 : b.toNat < c.toNat
          · simp [lexLe, show a.toNat < c.toNat from lt_trans hab1 hbc1]
          · by_cases hbc2 : c.toNat < b.toNat
            · simp [lexLe, hbc1, hbc2] at hbc
            · have hbceq : b.toNat = c.toNat := by omega
              simp [lexLe, show a.toNat < c.toNat from hbceq ▸ hab1]
        · by_cases hab2 : b.toNat < a.toNat
          · simp [lexLe, hab1, hab2] at hab
          · have habeq : a.toNat = b.toNat := by omega
            by_cases hbc1 : b.toNat < c.toNat
            · simp [lexLe, show a.toNat < c.toNat from habeq ▸ hbc1]
            · by_cases hbc2 : c.toNat < b.toNat
              · simp [lexLe, hbc1, hbc2] at hbc
              · have hab' : lexLe as bs = true := by
                  have he : lexLe (a :: as) (b :: bs) = lexLe as bs := by
                    show (if a.toNat < b.toNat then true
                      else if b.toNat < a.toNat then false else lexLe as bs) = lexLe as bs
                    rw [if_neg hab1, if_neg hab2]
                  rwa [he] at hab
                have hbc' : lexLe bs cs = true := by
                  have he : lexLe (b :: bs) (c :: cs) = lexLe bs cs := by
                    show (if b.toNat < c.toNat then true
                      else if c.toNat < b.toNat then false else lexLe bs cs) = lexLe bs cs
                    rw [if_neg hbc1, if_neg hbc2]
                  rwa [he] at hbc
                have h1 : ¬ a.toNat < c.toNat := by omega
                have h2 : ¬ c.toNat < a.toNat := by omega
                show (if a.toNat < c.toNat then true
                  else if c.toNat < a.toNat then false else lexLe as cs) = true
                rw [if_neg h1, if_neg h2]
                exact ih bs cs hab' hbc'

lemma mem_insertLe {α : Type} (le : α → α → Bool) (x a : α) :
    ∀ l, a ∈ insertLe le x l ↔ a = x ∨ a ∈ l := by
  intro l
  induction l with
  | nil => simp [insertLe]
  | cons y ys ih =>
    by_cases h : le x y = true
    · simp [insertLe, h, List.mem_cons]
    · simp only [insertLe, if_neg h, List.mem_cons, ih]
      tauto

lemma mem_pySorted {α : Type} (le : α → α → Bool) (a : α) :
    ∀ l, a ∈ pySorted le l ↔ a ∈ l := by
  intro l
  induction l with
  | nil => simp [pySorted]
  | cons x xs ih => simp [pySorted, mem_insertLe, ih]

lemma insertLe_perm {α : Type} (le : α → α → Bool) (x : α) :
    ∀ l, List.Perm (insertLe le x l) (x :: l) := by
  intro l
  induction l with
  | nil => exact List.Perm.refl _
  | cons y ys ih =>
    by_cases h : le x y = true
    · simp [insertLe, h]
    · simp only [insertLe, if_neg h]
      exact (ih.cons y).trans (List.Perm.swap x y ys)

lemma pySorted_perm {α : Type} (le : α → α → Bool) :
    ∀ l, List.Perm (pySorted le l) l := by
  intro l
  induction l with
  | nil => exact List.Perm.refl _
  | cons x xs ih => exact (insertLe_perm le x (pySorted le xs)).trans (ih.cons x)

lemma pairwise_insertLe {α : Type} (le : α → α → Bool)
    (htot : ∀ a b, le a b = true ∨ le b a = true)
    (htrans : ∀ a b c, le a b = true → le b c = true → le a c = true) (x : α) :
    ∀ l, List.Pairwise (fun a b => le a b = true) l →
      List.Pairwise (fun a b => le a b = true) (insertLe le x l) := by
  intro l
  induction l with
  | nil => intro _; simp [insertLe]
  | cons y ys ih =>
    intro hp
    rw [List.pairwise_cons] at hp
    by_cases h : le x y = true
    · rw [insertLe, if_pos h, List.pairwise_cons]
      refine ⟨?_, List.Pairwise.cons hp.1 hp.2⟩
      intro z hz
      rcases List.mem_cons.1 hz with rfl | hz'
      · exact h
      · exact htrans x y z h (hp.1 z hz')
    · rw [insertLe, if_neg h, List.pairwise_cons]
      refine ⟨?_, ih hp.2⟩
      intro z hz
      rcases (mem_insertLe le x z ys).1 hz with rfl | hz'
      · rcases htot z y with h' | h'
        · exact absurd h' h
        · exact h'
      · exact hp.1 z hz'

lemma pairwise_pySorted {α : Type} (le : α → α → Bool)
    (htot : ∀ a b, le a b = true ∨ le b a = true)
    (htrans : ∀ a b c, le a b = true → le b c = true → le a c = true) :
    ∀ l, List.Pairwise (fun a b => le a b = true) (pySorted le l) := by
  intro l
  induction l with
  | nil => simp [pySorted]
  | cons x xs ih => exact pairwise_insertLe le htot htrans x _ ih

lemma splitLastDot_noDot : ∀ cs : List Char, (∀ c ∈ cs, c ≠ '.') →
    splitLastDot cs = none := by
  intro cs
  induction cs with
  | nil => intro _; rfl
  | cons c cs ih =>
    intro h
    have hrest := ih (fun d hd => h d (List.mem_cons_of_mem c hd))
    show (match splitLastDot cs with
      | some (a, b) => some (c :: a, b)
      | none => if c = '.' then some ([], cs) else none) = none
    rw [hrest]
    show (if c = '.' then some (([] : List Char), cs) else none) = none
    rw [if_neg (h c (List.mem_cons_self c cs))]

lemma splitLastDot_append : ∀ (xs ys : List Char), (∀ c ∈ ys, c ≠ '.') →
    splitLastDot (xs ++ '.' :: ys) = some (xs, ys) := by
  intro xs ys hys
  induction xs with
  | nil =>
    show (match splitLastDot ys with
      | some (a, b) => some ('.' :: a, b)
      | none => if ('.' : Char) = '.' then some ([], ys) else none) = some ([], ys)
    rw [splitLastDot_noDot ys hys]
    simp
  | cons x xs ih =>
    show (match splitLastDot (xs ++ '.' :: ys) with
      | some (a, b) => some (x :: a, b)
      | none => if x = '.' then some ([], xs ++ '.' :: ys) else none) = some (x :: xs, ys)
    rw [ih]

lemma str_ne_data {a b : String} (h : a ≠ b) : a.data ≠ b.data :=
  fun hd => h (String.ext hd)

lemma pySuffix_of_png (f : String) (hf : globPng f = true) (hne : f ≠ (".png")) :
    pySuffix f = (".png") := by
  have hsuf : (".png").data <:+ f.data := of_decide_eq_true hf
  obtain ⟨t, ht⟩ := hsuf
  have hdata : f.data = t ++ '.' :: [('p' : Char), 'n', 'g'] := by
    rw [← ht]
  have htne : t ≠ [] := by
    intro h0
    apply str_ne_data hne
    rw [hdata, h0]
    decide
  unfold pySuffix
  rw [hdata, splitLastDot_append t _ (by decide)]
  show (if t ≠ [] ∧ ([('p' : Char), 'n', 'g'] : List Char) ≠ [] then
    String.mk ('.' :: [('p' : Char), 'n', 'g']) else "") = (".png")
  rw [if_pos ⟨htne, by decide⟩]

lemma mem_concatMonths (p : String × String) : ∀ l : List YearDir,
    p ∈ concatMonths l ↔ ∃ yd ∈ l, p ∈ monthsOf yd := by
  intro l
  induction l with
  | nil => simp [concatMonths]
  | cons yd rest ih =>
    show p ∈ monthsOf yd ++ concatMonths rest ↔ _
    rw [List.mem_append, ih]
    constructor
    · rintro (h | ⟨yd', hyd', h⟩)
      · exact ⟨yd, List.mem_cons_self yd rest, h⟩
      · exact ⟨yd', List.mem_cons_of_mem yd hyd', h⟩
    · rintro ⟨yd', hyd', h⟩
      rcases List.mem_cons.1 hyd' with rfl | h'
      · exact Or.inl h
      · exact Or.inr ⟨yd', h', h⟩

lemma mem_monthsOf (yd : YearDir) (y mo : String)
    (hdot : ∀ md ∈ yd.months, ∀ f ∈ md.files, f ≠ (".png")) :
    ((y, mo) ∈ monthsOf yd ↔ yd.name = y ∧ ∃ md ∈ yd.months, md.name = mo ∧
      ∃ f ∈ md.files, globPng f = true) := by
  unfold monthsOf
  constructor
  · intro h
    obtain ⟨md, hmd, heq⟩ := List.mem_map.1 h
    obtain ⟨hmem, hpng⟩ := List.mem_filter.1 hmd
    have hmem' : md ∈ yd.months := (mem_pySorted monthLe md yd.months).1 hmem
    have hy : yd.name = y := congrArg Prod.fst heq
    have hmo : md.name = mo := congrArg Prod.snd heq
    obtain ⟨f, hf, hfp⟩ := List.any_eq_true.1 hpng
    rw [Bool.and_eq_true] at hfp
    exact ⟨hy, md, hmem', hmo, f, hf, hfp.1⟩
  · rintro ⟨hy, md, hmd, hmo, f, hf, hfpng⟩
    refine List.mem_map.2 ⟨md, List.mem_filter.2
      ⟨(mem_pySorted monthLe md yd.months).2 hmd, ?_⟩, by rw [hy, hmo]⟩
    refine List.any_eq_true.2 ⟨f, hf, ?_⟩
    rw [Bool.and_eq_true]
    refine ⟨hfpng, ?_⟩
    rw [pySuffix_of_png f hfpng (hdot md hmd f hf)]
    decide

lemma fst_of_mem_monthsOf {yd : YearDir} {p : String × String}
    (h : p ∈ monthsOf yd) : p.1 = yd.name := by
  unfold monthsOf at h
  obtain ⟨md, _, heq⟩ := List.mem_map.1 h
  rw [← heq]

lemma pairwise_monthsOf (yd : YearDir) : List.Pairwise pairLE (monthsOf yd) := by
  unfold monthsOf
  rw [List.pairwise_map]
  apply List.Pairwise.filter
  have hp := pairwise_pySorted monthLe (fun a b => lexLe_total _ _)
    (fun a b c => lexLe_trans _ _ _) yd.months
  exact hp.imp (fun hab => Or.inr ⟨rfl, hab⟩)

lemma pairwise_concatMonths :
    ∀ l : List YearDir,
      List.Pairwise (fun a b => yearLe a b = true ∧ a.name ≠ b.name) l →
      List.Pairwise pairLE (concatMonths l) := by
  intro l
  induction l with
  | nil => intro _; simp [concatMonths]
  | cons yd rest ih =>
    intro hp
    rw [List.pairwise_cons] at hp
    show List.Pairwise pairLE (monthsOf yd ++ concatMonths rest)
    rw [List.pairwise_append]
    refine ⟨pairwise_monthsOf yd, ih hp.2, ?_⟩
    intro a ha b hb
    obtain ⟨yd', hyd', hb'⟩ := (mem_concatMonths b rest).1 hb
    have h1 := fst_of_mem_monthsOf ha
    have h2 := fst_of_mem_monthsOf hb'
    have h3 := hp.1 yd' hyd'
    left
    rw [h1, h2]
    exact ⟨h3.1, h3.2⟩

/-- C6: the months manifest contains `(y, m)` exactly when some file matching
`*.png` exists anywhere under that month's tree, and the manifest is sorted
ascending (lexicographically by year, then month).  Hypotheses: directory
names are unique per parent (true of any file system), and no file is named
bare `".png"` (`PurePath.suffix` of that name is empty, so the code would skip
it). -/
theorem C6_months_manifest :
    ∀ corpus : List YearDir,
    (corpus.map YearDir.name).Nodup →
    (∀ yd ∈ corpus, ∀ md ∈ yd.months, ∀ f ∈ md.files, f ≠ (".png")) →
    (∀ y mo : String, ((y, mo) ∈ build_months_manifest corpus ↔
      ∃ yd ∈ corpus, yd.name = y ∧ ∃ md ∈ yd.months, md.name = mo ∧
        ∃ f ∈ md.files, globPng f = true)) ∧
    List.Pairwise pairLE (build_months_manifest corpus) := by
  intro corpus hnodup hdot
  constructor
  · intro y mo
    unfold build_months_manifest
    rw [mem_concatMonths]
    constructor
    · rintro ⟨yd, hyd, hmem⟩
      have hyd' : yd ∈ corpus := (mem_pySorted yearLe yd corpus).1 hyd
      exact ⟨yd, hyd', (mem_monthsOf yd y mo (hdot yd hyd')).1 hmem⟩
    · rintro ⟨yd, hyd, hrest⟩
      exact ⟨yd, (mem_pySorted yearLe yd corpus).2 hyd,
        (mem_monthsOf yd y mo (hdot yd hyd)).2 hrest⟩
  · unfold build_months_manifest
    apply pairwise_concatMonths
    have hle := pairwise_pySorted yearLe (fun a b => lexLe_total _ _)
      (fun a b c => lexLe_trans _ _ _) corpus
    have hnd : ((pySorted yearLe corpus).map YearDir.name).Nodup :=
      (((pySorted_perm yearLe corpus).map YearDir.name).nodup_iff).2 hnodup
    have hne : List.Pairwise (fun a b : YearDir => a.name ≠ b.name)
        (pySorted yearLe corpus) := (List.pairwise_map).1 hnd
    exact hle.and hne

/-- Closed witness for `C6_months_manifest`: one year with a PNG-bearing
month and an empty month; only the former is listed, and the list is
sorted. -/
theorem C6_months_manifest_witness :
    ((("2026"), ("02")) ∈ build_months_manifest
        [⟨("2026"), [⟨("02"), [("07.png")]⟩, ⟨("01"), [("readme.txt")]⟩]⟩] ↔
      ∃ yd ∈ [(⟨("2026"), [⟨("02"), [("07.png")]⟩, ⟨("01"), [("readme.txt")]⟩]⟩ : YearDir)],
        yd.name = ("2026") ∧ ∃ md ∈ yd.months, md.name = ("02") ∧
          ∃ f ∈ md.files, globPng f = true) ∧
    List.Pairwise pairLE (build_months_manifest
      [⟨("2026"), [⟨("02"), [("07.png")]⟩, ⟨("01"), [("readme.txt")]⟩]⟩]) :=
  ⟨(C6_months_manifest _ (by decide) (by decide)).1 ("2026") ("02"),
   (C6_months_manifest _ (by decide) (by decide)).2⟩

end UV
